import Mathlib

/-!
Verification of the desk-availability allocation logic of the coworking-space
booking application (component `AdminBookingForm`): slot-span resolution,
duration-to-hour conversion, per-desk occupancy matrix construction, and the
feasibility test producing the set of infeasible start slots.

The embedding follows the source: `convertDurationToHours` is the switch at the
top of the file, `getHourlySlotsForBooking` is the `indexOf`/`slice` helper, and
the matrix construction plus the feasibility loop are the body of
`fetchBookedSlots`, with the JavaScript `Map<string, boolean[]>` rendered as an
association list with insertion-order `set`/`get` semantics.
-/

namespace BookingEngine

/-- The switch statement `convertDurationToHours (duration, totalSlots)`:
known duration codes map to a fixed hour count, `1-day` to the slot-grid
length, `1-week` and `1-month` to 7 and 30 times it, everything else to 1. -/
def convertDurationToHours (duration : String) (totalSlots : Nat) : Nat :=
  if duration = "1-hour" then 1
  else if duration = "2-hours" then 2
  else if duration = "4-hours" then 4
  else if duration = "1-day" then totalSlots
  else if duration = "1-week" then totalSlots * 7
  else if duration = "1-month" then totalSlots * 30
  else 1

/-- JavaScript `Array.prototype.indexOf`: index of the first occurrence of
`s` in `slots`, `none` when absent (the source compares the result to `-1`). -/
def indexOfSlot (slots : List String) (s : String) : Option Nat :=
  match slots with
  | [] => none
  | x :: rest => if x = s then some 0 else (indexOfSlot rest s).map (· + 1)

/-- `getHourlySlotsForBooking (startSlot, durationHours, allSlots)`:
`allSlots.indexOf(startSlot)` followed by
`allSlots.slice(startIndex, startIndex + durationHours)`;
returns `[]` when the start slot is not in the grid. -/
def getHourlySlotsForBooking (startSlot : String) (durationHours : Nat)
    (allSlots : List String) : List String :=
  match indexOfSlot allSlots startSlot with
  | none => []
  | some startIndex => (allSlots.drop startIndex).take durationHours

/-- One row fetched from the `bookings` table:
`select('time_slot, duration, desk_number')`, `desk_number` nullable. -/
structure Booking where
  time_slot : String
  duration : String
  desk_number : Option Int
  deriving DecidableEq, Repr

/-- The `deskAvailabilityMatrix : Map<string, boolean[]>` of the source,
as an association list. -/
def Matrix : Type := List (String × List Bool)

/-- JavaScript `Map.prototype.set`: replace the value at an existing key in
place, otherwise append the new entry at the end. -/
def mapSet (m : List (String × List Bool)) (k : String) (v : List Bool) :
    List (String × List Bool) :=
  match m with
  | [] => [(k, v)]
  | (k2, v2) :: rest =>
      if k2 = k then (k, v) :: rest else (k2, v2) :: mapSet rest k v

/-- JavaScript `Map.prototype.get`: the value at the key, `none` when absent. -/
def mapGet (m : List (String × List Bool)) (k : String) : Option (List Bool) :=
  match m with
  | [] => none
  | (k2, v2) :: rest => if k2 = k then some v2 else mapGet rest k

/-- The initialization loop: `hourlySlots.forEach((slot) =>
matrix.set(slot, new Array(totalDesks).fill(true)))`. -/
def initMatrix (hourlySlots : List String) (totalDesks : Nat) :
    List (String × List Bool) :=
  hourlySlots.foldl
    (fun m slot => mapSet m slot (List.replicate totalDesks true)) []

/-- The per-slot update for one booking: a desk number in `[1, totalDesks]`
clears that single desk flag (`availability[desk_number - 1] = false`);
a null or out-of-range desk number clears the whole row
(`availability.fill(false)`). -/
def applyBookingToSlot (totalDesks : Nat) (deskNumber : Option Int)
    (availability : List Bool) : List Bool :=
  match deskNumber with
  | some n =>
      if 1 ≤ n ∧ n ≤ (totalDesks : Int) then
        availability.set (n - 1).toNat false
      else
        List.replicate availability.length false
  | none => List.replicate availability.length false

/-- The `occupiedSlots` of one booking: its span resolved via
`convertDurationToHours` and `getHourlySlotsForBooking` over the grid. -/
def occupiedSlots (hourlySlots : List String) (b : Booking) : List String :=
  getHourlySlotsForBooking b.time_slot
    (convertDurationToHours b.duration hourlySlots.length) hourlySlots

/-- The body of `data?.forEach((booking) => ...)` for one booking: walk the
booking's occupied slots and update each matrix row that exists
(the `if (availability)` guard skips slots absent from the map). -/
def applyBooking (hourlySlots : List String) (totalDesks : Nat)
    (m : List (String × List Bool)) (b : Booking) :
    List (String × List Bool) :=
  (occupiedSlots hourlySlots b).foldl
    (fun m slot =>
      match mapGet m slot with
      | none => m
      | some availability =>
          mapSet m slot (applyBookingToSlot totalDesks b.desk_number availability))
    m

/-- The completed `deskAvailabilityMatrix` after folding in every booking. -/
def buildMatrix (hourlySlots : List String) (totalDesks : Nat)
    (bookings : List Booking) : List (String × List Bool) :=
  bookings.foldl (applyBooking hourlySlots totalDesks)
    (initMatrix hourlySlots totalDesks)

/-- The inner desk loop body: `deskAvailableForAllSlots` — the desk at
`deskIndex` is free in every required slot (a missing row or an out-of-bounds
index reads as occupied, as `!availability || !availability[deskIndex]`). -/
def deskFreeForAllSlots (m : List (String × List Bool))
    (requiredSlots : List String) (deskIndex : Nat) : Bool :=
  requiredSlots.all fun slot =>
    match mapGet m slot with
    | none => false
    | some availability => availability.getD deskIndex false

/-- The desk loop: `hasAvailableDesk` — some desk index below `totalDesks`
is free across the whole span. -/
def hasAvailableDesk (m : List (String × List Bool)) (totalDesks : Nat)
    (requiredSlots : List String) : Bool :=
  (List.range totalDesks).any fun deskIndex =>
    deskFreeForAllSlots m requiredSlots deskIndex

/-- The per-start-slot test of the feasibility loop: infeasible when the
resolved span is shorter than the requested hour count, or when no desk is
free across the whole span. -/
def slotInfeasible (hourlySlots : List String) (totalDesks : Nat)
    (m : List (String × List Bool)) (requestedDurationHours : Nat)
    (startSlot : String) : Bool :=
  let requiredSlots :=
    getHourlySlotsForBooking startSlot requestedDurationHours hourlySlots
  if requiredSlots.length < requestedDurationHours then true
  else !(hasAvailableDesk m totalDesks requiredSlots)

/-- The `unavailableSlots` list produced by `fetchBookedSlots`: the start
slots of the grid, in grid order, that fail the feasibility test for the
requested duration against the matrix built from the bookings. -/
def unavailableSlots (hourlySlots : List String) (totalDesks : Nat)
    (bookings : List Booking) (requestedDuration : String) : List String :=
  let requestedDurationHours :=
    convertDurationToHours requestedDuration hourlySlots.length
  let m := buildMatrix hourlySlots totalDesks bookings
  hourlySlots.filter
    (slotInfeasible hourlySlots totalDesks m requestedDurationHours)

/-- The fixed slot grid set in `fetchWorkspaceTypes`. -/
def sourceGrid : List String :=
  ["08:00 AM", "09:00 AM", "10:00 AM", "11:00 AM", "12:00 PM",
   "01:00 PM", "02:00 PM", "03:00 PM", "04:00 PM", "05:00 PM"]

/-- The complement of the source guard
`desk_number !== null && desk_number >= 1 && desk_number <= totalDesks`:
the desk assignment is null or lies outside `[1, totalDesks]`. -/
def deskUnassignedOrInvalid (totalDesks : Nat) (deskNumber : Option Int) : Bool :=
  match deskNumber with
  | none => true
  | some n => !(decide (1 ≤ n ∧ n ≤ (totalDesks : Int)))

/-- The loop body of `data?.forEach`, per occupied slot, named so that the
facts below can speak about one step of the fold. -/
def applyStep (totalDesks : Nat) (deskNumber : Option Int)
    (m : List (String × List Bool)) (slot : String) :
    List (String × List Bool) :=
  match mapGet m slot with
  | none => m
  | some availability =>
      mapSet m slot (applyBookingToSlot totalDesks deskNumber availability)

/-- The keys of the matrix, in insertion order. -/
def keys (m : List (String × List Bool)) : List String := m.map Prod.fst

theorem applyBooking_eq_foldl (hourlySlots : List String) (totalDesks : Nat)
    (m : List (String × List Bool)) (b : Booking) :
    applyBooking hourlySlots totalDesks m b =
      (occupiedSlots hourlySlots b).foldl
        (applyStep totalDesks b.desk_number) m := rfl

theorem mapGet_mapSet_self (m : List (String × List Bool)) (k : String)
    (v : List Bool) : mapGet (mapSet m k v) k = some v := by
  induction m with
  | nil => simp [mapSet, mapGet]
  | cons e rest ih =>
      obtain ⟨k2, v2⟩ := e
      by_cases h : k2 = k
      · simp [mapSet, mapGet, h]
      · simp [mapSet, mapGet, h, ih]

theorem mapGet_mapSet_ne (m : List (String × List Bool)) (k s : String)
    (v : List Bool) (h : s ≠ k) : mapGet (mapSet m k v) s = mapGet m s := by
  induction m with
  | nil => simp [mapSet, mapGet, Ne.symm h]
  | cons e rest ih =>
      obtain ⟨k2, v2⟩ := e
      by_cases h2 : k2 = k
      · subst h2
        simp [mapSet, mapGet, Ne.symm h]
      · by_cases h3 : k2 = s <;> simp [mapSet, mapGet, h2, h3, h, ih]

theorem mapGet_mem (m : List (String × List Bool)) (k : String) (v : List Bool)
    (h : mapGet m k = some v) : (k, v) ∈ m := by
  induction m with
  | nil => simp [mapGet] at h
  | cons e rest ih =>
      obtain ⟨k2, v2⟩ := e
      by_cases h2 : k2 = k
      · subst h2
        simp [mapGet] at h
        simp [h]
      · simp [mapGet, h2] at h
        exact List.mem_cons_of_mem _ (ih h)

theorem mem_mapSet (m : List (String × List Bool)) (k : String) (v : List Bool)
    (e : String × List Bool) (he : e ∈ mapSet m k v) : e = (k, v) ∨ e ∈ m := by
  induction m with
  | nil => simp [mapSet] at he; simp [he]
  | cons e2 rest ih =>
      obtain ⟨k2, v2⟩ := e2
      by_cases h2 : k2 = k
      · simp [mapSet, h2] at he
        rcases he with he | he
        · exact Or.inl he
        · exact Or.inr (List.mem_cons_of_mem _ he)
      · simp [mapSet, h2] at he
        rcases he with he | he
        · exact Or.inr (by simp [he])
        · rcases ih he with h | h
          · exact Or.inl h
          · exact Or.inr (List.mem_cons_of_mem _ h)

theorem mapGet_isSome_iff_mem_keys (m : List (String × List Bool)) (k : String) :
    (mapGet m k).isSome = true ↔ k ∈ keys m := by
  induction m with
  | nil => simp [mapGet, keys]
  | cons e rest ih =>
      obtain ⟨k2, v2⟩ := e
      by_cases h2 : k2 = k
      · subst h2
        simp [mapGet, keys]
      · simp [mapGet, keys, h2, Ne.symm h2] at ih ⊢
        exact ih

theorem keys_mapSet_mem (m : List (String × List Bool)) (k : String)
    (v : List Bool) (h : k ∈ keys m) : keys (mapSet m k v) = keys m := by
  induction m with
  | nil => simp [keys] at h
  | cons e rest ih =>
      obtain ⟨k2, v2⟩ := e
      by_cases h2 : k2 = k
      · subst h2
        simp [mapSet, keys]
      · have hk : k ∈ keys rest := by
          simp only [keys, List.map_cons, List.mem_cons] at h
          rcases h with h | h
          · exact absurd h.symm h2
          · exact h
        have hrec := ih hk
        simp only [keys] at hrec
        simp only [mapSet, if_neg h2, keys, List.map_cons, hrec]

theorem keys_mapSet_not_mem (m : List (String × List Bool)) (k : String)
    (v : List Bool) (h : k ∉ keys m) : keys (mapSet m k v) = keys m ++ [k] := by
  induction m with
  | nil => simp [mapSet, keys]
  | cons e rest ih =>
      obtain ⟨k2, v2⟩ := e
      have h1 : k ≠ k2 ∧ k ∉ keys rest := by
        simp only [keys, List.map_cons, List.mem_cons] at h
        exact ⟨fun hh => h (Or.inl hh), fun hh => h (Or.inr hh)⟩
      have h2 : ¬ k2 = k := fun hh => h1.1 hh.symm
      have hrec := ih h1.2
      simp only [keys] at hrec
      simp only [mapSet, if_neg h2, keys, List.map_cons, hrec, List.cons_append]

theorem indexOfSlot_eq_none_iff (slots : List String) (s : String) :
    indexOfSlot slots s = none ↔ s ∉ slots := by
  induction slots with
  | nil => simp [indexOfSlot]
  | cons x rest ih =>
      by_cases h : x = s
      · simp [indexOfSlot, h]
      · simp [indexOfSlot, h, Ne.symm h, ih]

theorem indexOfSlot_lt_length (slots : List String) (s : String) (i : Nat)
    (h : indexOfSlot slots s = some i) : i < slots.length := by
  induction slots generalizing i with
  | nil => simp [indexOfSlot] at h
  | cons x rest ih =>
      by_cases h2 : x = s
      · simp only [indexOfSlot, if_pos h2, Option.some.injEq] at h
        subst h
        simp only [List.length_cons]
        omega
      · simp [indexOfSlot, h2] at h
        obtain ⟨j, hj, hji⟩ := h
        have := ih j hj
        simp only [List.length_cons]
        omega

theorem indexOfSlot_getD (slots : List String) (s t : String) (i : Nat)
    (h : indexOfSlot slots s = some i) : slots.getD i t = s := by
  induction slots generalizing i with
  | nil => simp [indexOfSlot] at h
  | cons x rest ih =>
      by_cases h2 : x = s
      · simp [indexOfSlot, h2] at h
        subst h
        simpa using h2
      · simp [indexOfSlot, h2] at h
        obtain ⟨j, hj, hji⟩ := h
        subst hji
        simpa using ih j hj

theorem mem_grid_of_mem_span (start t : String) (c : Nat) (grid : List String)
    (h : t ∈ getHourlySlotsForBooking start c grid) : t ∈ grid := by
  unfold getHourlySlotsForBooking at h
  cases hidx : indexOfSlot grid start with
  | none => rw [hidx] at h; simp at h
  | some i =>
      rw [hidx] at h
      exact List.mem_of_mem_drop (List.mem_of_mem_take h)

theorem span_length_le (start : String) (c : Nat) (grid : List String) :
    (getHourlySlotsForBooking start c grid).length ≤ grid.length := by
  unfold getHourlySlotsForBooking
  cases hidx : indexOfSlot grid start with
  | none => simp
  | some i =>
      simp only [List.length_take, List.length_drop]
      exact le_trans (Nat.min_le_right _ _) (Nat.sub_le _ _)

theorem mapGet_initFold_not_mem (l : List String) (v : List Bool)
    (m : List (String × List Bool)) (s : String) (hs : s ∉ l) :
    mapGet (l.foldl (fun m slot => mapSet m slot v) m) s = mapGet m s := by
  induction l generalizing m with
  | nil => rfl
  | cons x rest ih =>
      have hx : s ≠ x := fun hh => hs (hh ▸ List.mem_cons_self x rest)
      have hrest : s ∉ rest := fun hh => hs (List.mem_cons_of_mem x hh)
      simp only [List.foldl_cons]
      rw [ih _ hrest, mapGet_mapSet_ne _ _ _ _ hx]

theorem mapGet_initFold_mem (l : List String) (v : List Bool)
    (m : List (String × List Bool)) (s : String) (hs : s ∈ l) :
    mapGet (l.foldl (fun m slot => mapSet m slot v) m) s = some v := by
  induction l generalizing m with
  | nil => cases hs
  | cons x rest ih =>
      simp only [List.foldl_cons]
      by_cases h : s ∈ rest
      · exact ih _ h
      · have hx : s = x := by
          rcases List.mem_cons.mp hs with h1 | h2
          · exact h1
          · exact absurd h2 h
        subst hx
        rw [mapGet_initFold_not_mem _ _ _ _ h, mapGet_mapSet_self]

theorem mapGet_initMatrix_mem (grid : List String) (D : Nat) (s : String)
    (hs : s ∈ grid) :
    mapGet (initMatrix grid D) s = some (List.replicate D true) :=
  mapGet_initFold_mem grid (List.replicate D true) [] s hs

theorem applyStep_get_ne (D : Nat) (dn : Option Int)
    (m : List (String × List Bool)) (slot s : String) (h : s ≠ slot) :
    mapGet (applyStep D dn m slot) s = mapGet m s := by
  unfold applyStep
  cases hg : mapGet m slot with
  | none => rfl
  | some av => exact mapGet_mapSet_ne _ _ _ _ h

theorem applyStep_get_isSome (D : Nat) (dn : Option Int)
    (m : List (String × List Bool)) (slot s : String) :
    (mapGet (applyStep D dn m slot) s).isSome = (mapGet m s).isSome := by
  unfold applyStep
  cases hg : mapGet m slot with
  | none => rfl
  | some av =>
      by_cases h : s = slot
      · subst h
        rw [mapGet_mapSet_self, hg]
        rfl
      · rw [mapGet_mapSet_ne _ _ _ _ h]

theorem foldl_applyStep_get_not_mem (D : Nat) (dn : Option Int)
    (l : List String) (m : List (String × List Bool)) (s : String)
    (hs : s ∉ l) :
    mapGet (l.foldl (applyStep D dn) m) s = mapGet m s := by
  induction l generalizing m with
  | nil => rfl
  | cons x rest ih =>
      have hx : s ≠ x := fun hh => hs (hh ▸ List.mem_cons_self x rest)
      have hrest : s ∉ rest := fun hh => hs (List.mem_cons_of_mem x hh)
      simp only [List.foldl_cons]
      rw [ih _ hrest, applyStep_get_ne _ _ _ _ _ hx]

theorem foldl_applyStep_get_isSome (D : Nat) (dn : Option Int)
    (l : List String) (m : List (String × List Bool)) (s : String) :
    (mapGet (l.foldl (applyStep D dn) m) s).isSome = (mapGet m s).isSome := by
  induction l generalizing m with
  | nil => rfl
  | cons x rest ih =>
      simp only [List.foldl_cons]
      rw [ih, applyStep_get_isSome]

theorem applyBooking_get_not_mem (grid : List String) (D : Nat)
    (m : List (String × List Bool)) (b : Booking) (s : String)
    (hs : s ∉ occupiedSlots grid b) :
    mapGet (applyBooking grid D m b) s = mapGet m s := by
  rw [applyBooking_eq_foldl]
  exact foldl_applyStep_get_not_mem _ _ _ _ _ hs

theorem applyBooking_get_isSome (grid : List String) (D : Nat)
    (m : List (String × List Bool)) (b : Booking) (s : String) :
    (mapGet (applyBooking grid D m b) s).isSome = (mapGet m s).isSome := by
  rw [applyBooking_eq_foldl]
  exact foldl_applyStep_get_isSome _ _ _ _ _

theorem foldl_applyBooking_get_not_mem (grid : List String) (D : Nat)
    (R : List Booking) (m : List (String × List Bool)) (s : String)
    (hR : ∀ b ∈ R, s ∉ occupiedSlots grid b) :
    mapGet (R.foldl (applyBooking grid D) m) s = mapGet m s := by
  induction R generalizing m with
  | nil => rfl
  | cons b rest ih =>
      simp only [List.foldl_cons]
      rw [ih _ (fun b2 hb2 => hR b2 (List.mem_cons_of_mem _ hb2)),
        applyBooking_get_not_mem _ _ _ _ _ (hR b (List.mem_cons_self _ _))]

theorem foldl_applyBooking_get_isSome (grid : List String) (D : Nat)
    (R : List Booking) (m : List (String × List Bool)) (s : String) :
    (mapGet (R.foldl (applyBooking grid D) m) s).isSome = (mapGet m s).isSome := by
  induction R generalizing m with
  | nil => rfl
  | cons b rest ih =>
      simp only [List.foldl_cons]
      rw [ih, applyBooking_get_isSome]

theorem buildMatrix_get_untouched (grid : List String) (D : Nat)
    (R : List Booking) (s : String) (hsg : s ∈ grid)
    (hR : ∀ b ∈ R, s ∉ occupiedSlots grid b) :
    mapGet (buildMatrix grid D R) s = some (List.replicate D true) := by
  unfold buildMatrix
  rw [foldl_applyBooking_get_not_mem _ _ _ _ _ hR]
  exact mapGet_initMatrix_mem _ _ _ hsg

theorem length_applyBookingToSlot (D : Nat) (dn : Option Int) (av : List Bool) :
    (applyBookingToSlot D dn av).length = av.length := by
  cases dn with
  | none => simp [applyBookingToSlot]
  | some n =>
      by_cases hc : 1 ≤ n ∧ n ≤ (D : Int)
      · simp only [applyBookingToSlot, if_pos hc]
        exact List.length_set _ _ _
      · simp only [applyBookingToSlot, if_neg hc]
        simp

theorem allFalse_applyBookingToSlot (D : Nat) (dn : Option Int) (av : List Bool)
    (h : ∀ x ∈ av, x = false) :
    ∀ x ∈ applyBookingToSlot D dn av, x = false := by
  cases dn with
  | none => exact fun x hx => List.eq_of_mem_replicate hx
  | some n =>
      by_cases hc : 1 ≤ n ∧ n ≤ (D : Int)
      · simp only [applyBookingToSlot, if_pos hc]
        intro x hx
        rcases List.mem_or_eq_of_mem_set hx with h2 | h2
        · exact h x h2
        · exact h2
      · simp only [applyBookingToSlot, if_neg hc]
        exact fun x hx => List.eq_of_mem_replicate hx

theorem applyBookingToSlot_of_invalid (D : Nat) (dn : Option Int)
    (av : List Bool) (h : deskUnassignedOrInvalid D dn = true) :
    applyBookingToSlot D dn av = List.replicate av.length false := by
  cases dn with
  | none => rfl
  | some n =>
      have hc : ¬(1 ≤ n ∧ n ≤ (D : Int)) := by
        simp [deskUnassignedOrInvalid] at h
        omega
      simp only [applyBookingToSlot, if_neg hc]

theorem applyStep_preserves_allFalse (D : Nat) (dn : Option Int)
    (m : List (String × List Bool)) (slot s : String) (av : List Bool)
    (hget : mapGet m s = some av) (hav : ∀ x ∈ av, x = false) :
    ∃ av2, mapGet (applyStep D dn m slot) s = some av2 ∧
      ∀ x ∈ av2, x = false := by
  by_cases h : s = slot
  · subst h
    unfold applyStep
    rw [hget]
    exact ⟨_, mapGet_mapSet_self _ _ _, allFalse_applyBookingToSlot D dn av hav⟩
  · rw [applyStep_get_ne _ _ _ _ _ h, hget]
    exact ⟨av, rfl, hav⟩

theorem foldl_applyStep_preserves_allFalse (D : Nat) (dn : Option Int)
    (l : List String) (m : List (String × List Bool)) (s : String)
    (av : List Bool) (hget : mapGet m s = some av)
    (hav : ∀ x ∈ av, x = false) :
    ∃ av2, mapGet (l.foldl (applyStep D dn) m) s = some av2 ∧
      ∀ x ∈ av2, x = false := by
  induction l generalizing m av with
  | nil => exact ⟨av, hget, hav⟩
  | cons x rest ih =>
      obtain ⟨av1, h1, h2⟩ := applyStep_preserves_allFalse D dn m x s av hget hav
      simp only [List.foldl_cons]
      exact ih _ _ h1 h2

theorem applyBooking_preserves_allFalse (grid : List String) (D : Nat)
    (m : List (String × List Bool)) (b : Booking) (s : String)
    (av : List Bool) (hget : mapGet m s = some av)
    (hav : ∀ x ∈ av, x = false) :
    ∃ av2, mapGet (applyBooking grid D m b) s = some av2 ∧
      ∀ x ∈ av2, x = false := by
  rw [applyBooking_eq_foldl]
  exact foldl_applyStep_preserves_allFalse _ _ _ _ _ _ hget hav

theorem foldl_applyBooking_preserves_allFalse (grid : List String) (D : Nat)
    (R : List Booking) (m : List (String × List Bool)) (s : String)
    (av : List Bool) (hget : mapGet m s = some av)
    (hav : ∀ x ∈ av, x = false) :
    ∃ av2, mapGet (R.foldl (applyBooking grid D) m) s = some av2 ∧
      ∀ x ∈ av2, x = false := by
  induction R generalizing m av with
  | nil => exact ⟨av, hget, hav⟩
  | cons b rest ih =>
      obtain ⟨av1, h1, h2⟩ :=
        applyBooking_preserves_allFalse grid D m b s av hget hav
      simp only [List.foldl_cons]
      exact ih _ _ h1 h2

theorem foldl_applyStep_invalid_allFalse (D : Nat) (dn : Option Int)
    (hdn : deskUnassignedOrInvalid D dn = true) (l : List String)
    (m : List (String × List Bool)) (s : String) (hs : s ∈ l)
    (av : List Bool) (hget : mapGet m s = some av) :
    ∃ av2, mapGet (l.foldl (applyStep D dn) m) s = some av2 ∧
      ∀ x ∈ av2, x = false := by
  induction l generalizing m av with
  | nil => cases hs
  | cons x rest ih =>
      simp only [List.foldl_cons]
      by_cases h : s ∈ rest
      · have hsome : (mapGet (applyStep D dn m x) s).isSome = true := by
          rw [applyStep_get_isSome, hget]
          rfl
        obtain ⟨av1, hav1⟩ := Option.isSome_iff_exists.mp hsome
        exact ih _ h _ hav1
      · have hx : s = x := by
          rcases List.mem_cons.mp hs with h1 | h2
          · exact h1
          · exact absurd h2 h
        subst hx
        have hred : applyStep D dn m s =
            mapSet m s (applyBookingToSlot D dn av) := by
          unfold applyStep
          rw [hget]
        have hstep : mapGet (applyStep D dn m s) s =
            some (List.replicate av.length false) := by
          rw [hred, applyBookingToSlot_of_invalid D dn av hdn]
          exact mapGet_mapSet_self _ _ _
        rw [foldl_applyStep_get_not_mem D dn rest _ s h, hstep]
        exact ⟨_, rfl, fun x hx => List.eq_of_mem_replicate hx⟩

theorem applyBooking_invalid_allFalse (grid : List String) (D : Nat)
    (m : List (String × List Bool)) (b : Booking)
    (hdn : deskUnassignedOrInvalid D b.desk_number = true) (s : String)
    (hs : s ∈ occupiedSlots grid b) (av : List Bool)
    (hget : mapGet m s = some av) :
    ∃ av2, mapGet (applyBooking grid D m b) s = some av2 ∧
      ∀ x ∈ av2, x = false := by
  rw [applyBooking_eq_foldl]
  exact foldl_applyStep_invalid_allFalse D _ hdn _ _ _ hs _ hget

theorem rows_length_mapSet (m : List (String × List Bool)) (k : String)
    (v : List Bool) (D : Nat) (hm : ∀ e ∈ m, e.2.length = D)
    (hv : v.length = D) : ∀ e ∈ mapSet m k v, e.2.length = D := by
  intro e he
  rcases mem_mapSet m k v e he with h | h
  · rw [h]
    exact hv
  · exact hm e h

theorem rows_length_initMatrix (grid : List String) (D : Nat) :
    ∀ e ∈ initMatrix grid D, e.2.length = D := by
  unfold initMatrix
  suffices h : ∀ m : List (String × List Bool), (∀ e ∈ m, e.2.length = D) →
      ∀ e ∈ grid.foldl
        (fun m slot => mapSet m slot (List.replicate D true)) m,
        e.2.length = D by
    exact h [] (by simp)
  induction grid with
  | nil => exact fun m hm => hm
  | cons x rest ih =>
      intro m hm
      simp only [List.foldl_cons]
      exact ih _ (rows_length_mapSet _ _ _ _ hm (List.length_replicate _ _))

theorem rows_length_applyStep (D : Nat) (dn : Option Int)
    (m : List (String × List Bool)) (slot : String)
    (hm : ∀ e ∈ m, e.2.length = D) :
    ∀ e ∈ applyStep D dn m slot, e.2.length = D := by
  unfold applyStep
  cases hg : mapGet m slot with
  | none => exact hm
  | some av =>
      have hav : av.length = D := hm (slot, av) (mapGet_mem m slot av hg)
      exact rows_length_mapSet _ _ _ _ hm
        (by rw [length_applyBookingToSlot]; exact hav)

theorem rows_length_foldl_applyStep (D : Nat) (dn : Option Int)
    (l : List String) (m : List (String × List Bool))
    (hm : ∀ e ∈ m, e.2.length = D) :
    ∀ e ∈ l.foldl (applyStep D dn) m, e.2.length = D := by
  induction l generalizing m with
  | nil => exact hm
  | cons x rest ih =>
      simp only [List.foldl_cons]
      exact ih _ (rows_length_applyStep D dn m x hm)

theorem rows_length_applyBooking (grid : List String) (D : Nat)
    (m : List (String × List Bool)) (b : Booking)
    (hm : ∀ e ∈ m, e.2.length = D) :
    ∀ e ∈ applyBooking grid D m b, e.2.length = D := by
  rw [applyBooking_eq_foldl]
  exact rows_length_foldl_applyStep _ _ _ _ hm

theorem rows_length_buildMatrix (grid : List String) (D : Nat)
    (R : List Booking) : ∀ e ∈ buildMatrix grid D R, e.2.length = D := by
  unfold buildMatrix
  suffices h : ∀ m : List (String × List Bool), (∀ e ∈ m, e.2.length = D) →
      ∀ e ∈ R.foldl (applyBooking grid D) m, e.2.length = D by
    exact h _ (rows_length_initMatrix grid D)
  induction R with
  | nil => exact fun m hm => hm
  | cons b rest ih =>
      intro m hm
      simp only [List.foldl_cons]
      exact ih _ (rows_length_applyBooking grid D m b hm)

/-- Claim C1: for every reservation in the input list whose desk assignment is
null or whose desk number lies outside `[1, total_desks]`, the matrix builder
clears all desk flags for every slot of that reservation's resolved span: in
the finished matrix each such slot's row is entirely false
(`List.replicate D false`), never a row with only a single desk cleared. -/
theorem claim_C1_unassigned_or_invalid_desk_blocks_all (grid : List String)
    (D : Nat) (R : List Booking) (b : Booking) (hb : b ∈ R)
    (hdn : deskUnassignedOrInvalid D b.desk_number = true)
    (s : String) (hs : s ∈ occupiedSlots grid b) :
    mapGet (buildMatrix grid D R) s = some (List.replicate D false) := by
  obtain ⟨l1, l2, hsplit⟩ := List.append_of_mem hb
  subst hsplit
  have hgrid : s ∈ grid := mem_grid_of_mem_span _ _ _ _ hs
  have hinit : mapGet (initMatrix grid D) s = some (List.replicate D true) :=
    mapGet_initMatrix_mem _ _ _ hgrid
  have hsome :
      (mapGet (l1.foldl (applyBooking grid D) (initMatrix grid D)) s).isSome =
        true := by
    rw [foldl_applyBooking_get_isSome, hinit]
    rfl
  obtain ⟨av, hav⟩ := Option.isSome_iff_exists.mp hsome
  obtain ⟨av2, h1, h2⟩ :=
    applyBooking_invalid_allFalse grid D _ b hdn s hs av hav
  obtain ⟨av3, h3, h4⟩ :=
    foldl_applyBooking_preserves_allFalse grid D l2 _ s av2 h1 h2
  have hbm : buildMatrix grid D (l1 ++ b :: l2) =
      l2.foldl (applyBooking grid D)
        (applyBooking grid D (l1.foldl (applyBooking grid D)
          (initMatrix grid D)) b) := by
    simp [buildMatrix, List.foldl_append]
  have hlen : av3.length = D := by
    have hmem := mapGet_mem _ _ _ h3
    exact rows_length_buildMatrix grid D (l1 ++ b :: l2) (s, av3)
      (by rw [hbm]; exact hmem)
  rw [hbm, h3]
  exact congrArg some (List.eq_replicate_iff.mpr ⟨hlen, h4⟩)

/-- Witness for claim C1: a single reservation with a null desk at 10:00 AM
for two hours, three desks in total, leaves the 10:00 AM row all-false. -/
theorem claim_C1_witness :
    mapGet (buildMatrix sourceGrid 3 [⟨"10:00 AM", "2-hours", none⟩])
        "10:00 AM" = some (List.replicate 3 false) :=
  claim_C1_unassigned_or_invalid_desk_blocks_all sourceGrid 3
    [⟨"10:00 AM", "2-hours", none⟩] ⟨"10:00 AM", "2-hours", none⟩
    (by decide) (by decide) "10:00 AM" (by decide)

/-- Claim C2: on the source's ten-slot grid with one desk and one active
reservation at 09:00 AM for two hours on desk 1, a one-hour request is
infeasible exactly at 09:00 AM and 10:00 AM, in that order; with two desks
and the same reservation the infeasible set is empty. -/
theorem claim_C2_scenario_infeasible_sets :
    unavailableSlots sourceGrid 1 [⟨"09:00 AM", "2-hours", some 1⟩]
        "1-hour" = ["09:00 AM", "10:00 AM"] ∧
    unavailableSlots sourceGrid 2 [⟨"09:00 AM", "2-hours", some 1⟩]
        "1-hour" = [] := by
  constructor
  · decide
  · decide

/-- Claim C3: any start slot whose resolved span is shorter than the
requested hour count lands in the infeasible set, for every reservation list
and desk count. -/
theorem claim_C3_short_span_always_infeasible (grid : List String) (D : Nat)
    (R : List Booking) (dur : String) (s : String) (hsg : s ∈ grid)
    (hshort : (getHourlySlotsForBooking s
        (convertDurationToHours dur grid.length) grid).length <
      convertDurationToHours dur grid.length) :
    s ∈ unavailableSlots grid D R dur := by
  have hinf : slotInfeasible grid D (buildMatrix grid D R)
      (convertDurationToHours dur grid.length) s = true := by
    simp [slotInfeasible, hshort]
  simp [unavailableSlots, List.mem_filter, hsg, hinf]

/-- Witness for claim C3: a four-hour request starting at the 8th slot of the
ten-slot grid is infeasible with no reservations at all. -/
theorem claim_C3_witness :
    "03:00 PM" ∈ unavailableSlots sourceGrid 6 [] "4-hours" :=
  claim_C3_short_span_always_infeasible sourceGrid 6 [] "4-hours" "03:00 PM"
    (by decide) (by decide)

/-- Claim C4: with a positive desk count, a duration whose span fits from the
given start slot, and no reservation span meeting the start slot's required
span, the start slot is absent from the infeasible set. -/
theorem claim_C4_untouched_span_is_feasible (grid : List String) (D : Nat)
    (R : List Booking) (dur : String) (s : String) (hD : 0 < D)
    (hfit : convertDurationToHours dur grid.length ≤
      (getHourlySlotsForBooking s
        (convertDurationToHours dur grid.length) grid).length)
    (hdisj : ∀ b ∈ R, ∀ t ∈ occupiedSlots grid b,
      t ∉ getHourlySlotsForBooking s
        (convertDurationToHours dur grid.length) grid) :
    s ∉ unavailableSlots grid D R dur := by
  intro hmem
  simp only [unavailableSlots] at hmem
  obtain ⟨hsg, hpred⟩ := List.mem_filter.mp hmem
  simp only [slotInfeasible] at hpred
  rw [if_neg (Nat.not_lt.mpr hfit)] at hpred
  have hfalse : hasAvailableDesk (buildMatrix grid D R) D
      (getHourlySlotsForBooking s
        (convertDurationToHours dur grid.length) grid) = false := by
    simpa using hpred
  have htrue : hasAvailableDesk (buildMatrix grid D R) D
      (getHourlySlotsForBooking s
        (convertDurationToHours dur grid.length) grid) = true := by
    unfold hasAvailableDesk
    rw [List.any_eq_true]
    refine ⟨0, List.mem_range.mpr hD, ?_⟩
    unfold deskFreeForAllSlots
    rw [List.all_eq_true]
    intro t ht
    have htg : t ∈ grid := mem_grid_of_mem_span _ _ _ _ ht
    have hnm : ∀ b ∈ R, t ∉ occupiedSlots grid b :=
      fun b hb hoc => hdisj b hb t hoc ht
    rw [buildMatrix_get_untouched grid D R t htg hnm]
    show (List.replicate D true).getD 0 false = true
    obtain ⟨d, rfl⟩ : ∃ d, D = d + 1 := ⟨D - 1, by omega⟩
    simp [List.replicate_succ]
  rw [htrue] at hfalse
  cases hfalse

/-- Witness for claim C4: with one desk and a reservation covering 09:00 AM
and 10:00 AM, the untouched start slot 11:00 AM is feasible. -/
theorem claim_C4_witness :
    "11:00 AM" ∉ unavailableSlots sourceGrid 1
      [⟨"09:00 AM", "2-hours", some 1⟩] "1-hour" :=
  claim_C4_untouched_span_is_feasible sourceGrid 1
    [⟨"09:00 AM", "2-hours", some 1⟩] "1-hour" "11:00 AM"
    (by decide) (by decide) (by decide)

theorem convert_one_hour (n : Nat) : convertDurationToHours "1-hour" n = 1 :=
  rfl

theorem convert_two_hours (n : Nat) :
    convertDurationToHours "2-hours" n = 2 := rfl

theorem convert_four_hours (n : Nat) :
    convertDurationToHours "4-hours" n = 4 := rfl

theorem convert_one_day (n : Nat) : convertDurationToHours "1-day" n = n :=
  rfl

theorem convert_one_week (n : Nat) :
    convertDurationToHours "1-week" n = n * 7 := rfl

theorem convert_one_month (n : Nat) :
    convertDurationToHours "1-month" n = n * 30 := rfl

/-- Claim C9: every duration code outside the known table resolves to exactly
one hour, on every grid length; the resolver is a total function, so no
input raises an error. -/
theorem claim_C9_unknown_duration_defaults_to_one_hour (d : String) (n : Nat)
    (hd : d ∉ (["1-hour", "2-hours", "4-hours", "1-day", "1-week",
      "1-month"] : List String)) :
    convertDurationToHours d n = 1 := by
  simp only [List.mem_cons, List.not_mem_nil, or_false, not_or] at hd
  obtain ⟨h1, h2, h3, h4, h5, h6⟩ := hd
  unfold convertDurationToHours
  rw [if_neg h1, if_neg h2, if_neg h3, if_neg h4, if_neg h5, if_neg h6]

/-- Witness for claim C9: the unrecognized code `banana` resolves to 1. -/
theorem claim_C9_witness : convertDurationToHours "banana" 5 = 1 :=
  claim_C9_unknown_duration_defaults_to_one_hour "banana" 5 (by decide)

/-- Counterexample for claim C5: on a slot grid of length 3 the larger code
`1-day` resolves to 3 hours, strictly fewer than the smaller code `4-hours`
at 4 hours, so the mapping is not monotonic for every slot-grid length. -/
theorem claim_C5_counterexample :
    convertDurationToHours "1-day" 3 < convertDurationToHours "4-hours" 3 := by
  decide

/-- Claim C5 (amended): the mapping is total by construction, and for every
slot-grid length of at least 4 — in particular the deployed ten-slot grid —
it is monotonic in the ordering 1-hour, 2-hours, 4-hours, 1-day, 1-week,
1-month. -/
theorem claim_C5_monotone_on_grids_of_length_at_least_four (n : Nat)
    (h : 4 ≤ n) :
    convertDurationToHours "1-hour" n ≤ convertDurationToHours "2-hours" n ∧
    convertDurationToHours "2-hours" n ≤ convertDurationToHours "4-hours" n ∧
    convertDurationToHours "4-hours" n ≤ convertDurationToHours "1-day" n ∧
    convertDurationToHours "1-day" n ≤ convertDurationToHours "1-week" n ∧
    convertDurationToHours "1-week" n ≤
      convertDurationToHours "1-month" n := by
  rw [convert_one_hour, convert_two_hours, convert_four_hours,
    convert_one_day, convert_one_week, convert_one_month]
  omega

/-- Witness for the amended claim C5 at the deployed grid length 10. -/
theorem claim_C5_witness :
    convertDurationToHours "1-hour" 10 ≤ convertDurationToHours "2-hours" 10 ∧
    convertDurationToHours "2-hours" 10 ≤
      convertDurationToHours "4-hours" 10 ∧
    convertDurationToHours "4-hours" 10 ≤ convertDurationToHours "1-day" 10 ∧
    convertDurationToHours "1-day" 10 ≤ convertDurationToHours "1-week" 10 ∧
    convertDurationToHours "1-week" 10 ≤
      convertDurationToHours "1-month" 10 :=
  claim_C5_monotone_on_grids_of_length_at_least_four 10 (by decide)

/-- Claim C10: on any non-empty grid, `1-week` resolves to 7 times the grid
length and `1-month` to 30 times it, and for both codes every start slot is
infeasible: the infeasible set is the entire grid, for every reservation
list and desk count. -/
theorem claim_C10_week_and_month_block_entire_grid (grid : List String)
    (D : Nat) (R : List Booking) (hne : grid ≠ []) :
    convertDurationToHours "1-week" grid.length = grid.length * 7 ∧
    convertDurationToHours "1-month" grid.length = grid.length * 30 ∧
    unavailableSlots grid D R "1-week" = grid ∧
    unavailableSlots grid D R "1-month" = grid := by
  have hN : 0 < grid.length := List.length_pos.mpr hne
  refine ⟨rfl, rfl, ?_, ?_⟩
  · simp only [unavailableSlots]
    rw [List.filter_eq_self]
    intro a ha
    have hlen := span_length_le a
      (convertDurationToHours "1-week" grid.length) grid
    have hlt : (getHourlySlotsForBooking a
        (convertDurationToHours "1-week" grid.length) grid).length <
        convertDurationToHours "1-week" grid.length := by
      rw [convert_one_week] at hlen ⊢
      omega
    simp [slotInfeasible, hlt]
  · simp only [unavailableSlots]
    rw [List.filter_eq_self]
    intro a ha
    have hlen := span_length_le a
      (convertDurationToHours "1-month" grid.length) grid
    have hlt : (getHourlySlotsForBooking a
        (convertDurationToHours "1-month" grid.length) grid).length <
        convertDurationToHours "1-month" grid.length := by
      rw [convert_one_month] at hlen ⊢
      omega
    simp [slotInfeasible, hlt]

/-- Witness for claim C10 on the source's own grid with six desks and no
reservations. -/
theorem claim_C10_witness :
    convertDurationToHours "1-week" sourceGrid.length =
      sourceGrid.length * 7 ∧
    convertDurationToHours "1-month" sourceGrid.length =
      sourceGrid.length * 30 ∧
    unavailableSlots sourceGrid 6 [] "1-week" = sourceGrid ∧
    unavailableSlots sourceGrid 6 [] "1-month" = sourceGrid :=
  claim_C10_week_and_month_block_entire_grid sourceGrid 6 [] (by decide)

/-- Claim C8: the slot-span resolver returns the empty sequence when the
start label is absent from the grid; when the start label sits at index `i`,
the result has length `min c (grid.length - i)`, starts with the start label,
lists the grid entries from index `i` on in grid order (never wrapping), and
is strictly shorter than `c` exactly when the span would run past the end of
the grid. -/
theorem claim_C8_span_resolver_contract (start : String) (c : Nat)
    (grid : List String) :
    (start ∉ grid → getHourlySlotsForBooking start c grid = []) ∧
    (∀ i, indexOfSlot grid start = some i →
      (getHourlySlotsForBooking start c grid).length =
        min c (grid.length - i) ∧
      (0 < (getHourlySlotsForBooking start c grid).length →
        (getHourlySlotsForBooking start c grid).getD 0 "" = start) ∧
      (∀ j, j < (getHourlySlotsForBooking start c grid).length →
        (getHourlySlotsForBooking start c grid).getD j "" =
          grid.getD (i + j) "") ∧
      (grid.length < i + c →
        (getHourlySlotsForBooking start c grid).length < c)) := by
  constructor
  · intro h
    unfold getHourlySlotsForBooking
    rw [(indexOfSlot_eq_none_iff grid start).mpr h]
  · intro i hi
    have hspan : getHourlySlotsForBooking start c grid =
        (grid.drop i).take c := by
      unfold getHourlySlotsForBooking
      rw [hi]
    have hlen : (getHourlySlotsForBooking start c grid).length =
        min c (grid.length - i) := by
      rw [hspan]
      simp [List.length_take, List.length_drop]
    have hidx : ∀ j, j < (getHourlySlotsForBooking start c grid).length →
        (getHourlySlotsForBooking start c grid).getD j "" =
          grid.getD (i + j) "" := by
      intro j hj
      rw [hspan] at hj ⊢
      have hj2 : j < (grid.drop i).length :=
        lt_of_lt_of_le hj (List.length_take_le' c (grid.drop i))
      have hij : i + j < grid.length := by
        rw [List.length_drop] at hj2
        omega
      simp only [List.getD_eq_getElem?_getD, List.getElem?_eq_getElem hj,
        List.getElem?_eq_getElem hij, Option.getD_some, List.getElem_take,
        List.getElem_drop]
    refine ⟨hlen, ?_, hidx, ?_⟩
    · intro hpos
      rw [hidx 0 hpos]
      simpa using indexOfSlot_getD grid start "" i hi
    · intro hover
      rw [hlen]
      have hi2 : i < grid.length := indexOfSlot_lt_length grid start i hi
      exact lt_of_le_of_lt (Nat.min_le_right _ _) (by omega)

/-- Witness for claim C8 on a three-slot grid: an absent start label gives
the empty span, and from index 1 a five-hour request gives the short,
non-wrapping span of length 2. -/
theorem claim_C8_witness :
    (getHourlySlotsForBooking "X" 2 ["A", "B", "C"] = []) ∧
    ((getHourlySlotsForBooking "B" 5 ["A", "B", "C"]).length =
        min 5 ((["A", "B", "C"] : List String).length - 1) ∧
      (0 < (getHourlySlotsForBooking "B" 5 ["A", "B", "C"]).length →
        (getHourlySlotsForBooking "B" 5 ["A", "B", "C"]).getD 0 "" = "B") ∧
      (∀ j, j < (getHourlySlotsForBooking "B" 5 ["A", "B", "C"]).length →
        (getHourlySlotsForBooking "B" 5 ["A", "B", "C"]).getD j "" =
          (["A", "B", "C"] : List String).getD (1 + j) "") ∧
      ((["A", "B", "C"] : List String).length < 1 + 5 →
        (getHourlySlotsForBooking "B" 5 ["A", "B", "C"]).length < 5)) :=
  ⟨(claim_C8_span_resolver_contract "X" 2 ["A", "B", "C"]).1 (by decide),
   (claim_C8_span_resolver_contract "B" 5 ["A", "B", "C"]).2 1 (by decide)⟩

theorem keys_initFold (v : List Bool) (grid : List String) :
    ∀ m : List (String × List Bool), grid.Nodup →
      (∀ s ∈ grid, s ∉ keys m) →
      keys (grid.foldl (fun m slot => mapSet m slot v) m) = keys m ++ grid := by
  induction grid with
  | nil =>
      intro m _ _
      simp
  | cons x rest ih =>
      intro m hnd hdisj
      simp only [List.foldl_cons]
      have hx : x ∉ keys m := hdisj x (List.mem_cons_self _ _)
      have hkeys : keys (mapSet m x v) = keys m ++ [x] :=
        keys_mapSet_not_mem m x v hx
      have hnd2 : rest.Nodup := (List.nodup_cons.mp hnd).2
      have hxr : x ∉ rest := (List.nodup_cons.mp hnd).1
      have hdisj2 : ∀ s ∈ rest, s ∉ keys (mapSet m x v) := by
        intro s hs
        rw [hkeys]
        intro hmem
        rcases List.mem_append.mp hmem with h | h
        · exact hdisj s (List.mem_cons_of_mem _ hs) h
        · have hsx : s = x := List.mem_singleton.mp h
          subst hsx
          exact hxr hs
      rw [ih _ hnd2 hdisj2, hkeys]
      simp

theorem keys_initMatrix (grid : List String) (D : Nat) (hnd : grid.Nodup) :
    keys (initMatrix grid D) = grid := by
  unfold initMatrix
  have h := keys_initFold (List.replicate D true) grid [] hnd
    (by simp [keys])
  simpa [keys] using h

theorem keys_applyStep (D : Nat) (dn : Option Int)
    (m : List (String × List Bool)) (slot : String) :
    keys (applyStep D dn m slot) = keys m := by
  unfold applyStep
  cases hg : mapGet m slot with
  | none => rfl
  | some av =>
      apply keys_mapSet_mem
      exact (mapGet_isSome_iff_mem_keys m slot).mp (by rw [hg]; rfl)

theorem keys_foldl_applyStep (D : Nat) (dn : Option Int) (l : List String)
    (m : List (String × List Bool)) :
    keys (l.foldl (applyStep D dn) m) = keys m := by
  induction l generalizing m with
  | nil => rfl
  | cons x rest ih =>
      simp only [List.foldl_cons]
      rw [ih, keys_applyStep]

theorem keys_applyBooking (grid : List String) (D : Nat)
    (m : List (String × List Bool)) (b : Booking) :
    keys (applyBooking grid D m b) = keys m := by
  rw [applyBooking_eq_foldl]
  exact keys_foldl_applyStep _ _ _ _

theorem keys_buildMatrix (grid : List String) (D : Nat) (R : List Booking)
    (hnd : grid.Nodup) : keys (buildMatrix grid D R) = grid := by
  unfold buildMatrix
  suffices h : ∀ m : List (String × List Bool),
      keys (R.foldl (applyBooking grid D) m) = keys m by
    rw [h]
    exact keys_initMatrix grid D hnd
  induction R with
  | nil => exact fun m => rfl
  | cons b rest ih =>
      intro m
      simp only [List.foldl_cons]
      rw [ih, keys_applyBooking]

/-- Counterexample for claim C6: on a slot grid with a repeated label the
`Map`-backed matrix collapses the duplicates, so it has one entry where the
grid has two slots. -/
theorem claim_C6_counterexample :
    (buildMatrix ["A", "A"] 1 []).length = 1 ∧
    (["A", "A"] : List String).length = 2 := by
  decide

/-- Claim C6 (amended): for every slot grid of length N with pairwise
distinct labels and every reservation list, the matrix has exactly N
entries, each a row of exactly `total_desks` booleans. -/
theorem claim_C6_matrix_shape (grid : List String) (D : Nat)
    (R : List Booking) (hnd : grid.Nodup) :
    (buildMatrix grid D R).length = grid.length ∧
    ∀ e ∈ buildMatrix grid D R, e.2.length = D := by
  constructor
  · have hk : (keys (buildMatrix grid D R)).length = grid.length := by
      rw [keys_buildMatrix grid D R hnd]
    simpa [keys] using hk
  · exact rows_length_buildMatrix grid D R

/-- Witness for the amended claim C6 on the source's distinct-label grid
with six desks and one reservation. -/
theorem claim_C6_witness :
    (buildMatrix sourceGrid 6 [⟨"09:00 AM", "2-hours", some 1⟩]).length =
      sourceGrid.length ∧
    ∀ e ∈ buildMatrix sourceGrid 6 [⟨"09:00 AM", "2-hours", some 1⟩],
      e.2.length = 6 :=
  claim_C6_matrix_shape sourceGrid 6 [⟨"09:00 AM", "2-hours", some 1⟩]
    (by decide)

/-- The row ordering of the monotonicity claim: `r1` is pointwise
less-or-equally free than `r2` — same length, and any desk free (`true`)
in `r1` is free in `r2`. -/
def rowLE (r1 r2 : List Bool) : Prop :=
  List.Forall₂ (fun a b => a = true → b = true) r1 r2

/-- The matrix ordering of the monotonicity claim: the same keys in the same
order, each row pointwise less-or-equally free. -/
def matrixLE (m1 m2 : List (String × List Bool)) : Prop :=
  List.Forall₂ (fun e1 e2 => e1.1 = e2.1 ∧ rowLE e1.2 e2.2) m1 m2

theorem rowLE_refl (r : List Bool) : rowLE r r :=
  List.forall₂_same.mpr (fun _ _ h => h)

theorem rowLE_trans {a b c : List Bool} (h1 : rowLE a b) (h2 : rowLE b c) :
    rowLE a c := by
  unfold rowLE at h1 h2 ⊢
  induction h1 generalizing c with
  | nil =>
      cases h2
      exact List.Forall₂.nil
  | cons hxy htail ih =>
      cases h2 with
      | cons hyz htail2 =>
          exact List.Forall₂.cons (fun hh => hyz (hxy hh)) (ih htail2)

theorem matrixLE_refl (m : List (String × List Bool)) : matrixLE m m :=
  List.forall₂_same.mpr (fun e _ => ⟨rfl, rowLE_refl e.2⟩)

theorem matrixLE_trans {m1 m2 m3 : List (String × List Bool)}
    (h1 : matrixLE m1 m2) (h2 : matrixLE m2 m3) : matrixLE m1 m3 := by
  unfold matrixLE at h1 h2 ⊢
  induction h1 generalizing m3 with
  | nil =>
      cases h2
      exact List.Forall₂.nil
  | cons h12 htail ih =>
      cases h2 with
      | cons h23 htail2 =>
          exact List.Forall₂.cons
            ⟨h12.1.trans h23.1, rowLE_trans h12.2 h23.2⟩ (ih htail2)

theorem rowLE_set_false (r : List Bool) (i : Nat) : rowLE (r.set i false) r := by
  unfold rowLE
  induction r generalizing i with
  | nil => exact List.Forall₂.nil
  | cons x t ih =>
      cases i with
      | zero =>
          exact List.Forall₂.cons (fun hh => absurd hh (by decide))
            (List.forall₂_same.mpr fun a _ h => h)
      | succ j => exact List.Forall₂.cons (fun hh => hh) (ih j)

theorem rowLE_replicate_false (r : List Bool) :
    rowLE (List.replicate r.length false) r := by
  unfold rowLE
  induction r with
  | nil => exact List.Forall₂.nil
  | cons x t ih =>
      simp only [List.length_cons, List.replicate_succ]
      exact List.Forall₂.cons (fun hh => absurd hh (by decide)) ih

theorem applyBookingToSlot_rowLE (D : Nat) (dn : Option Int) (av : List Bool) :
    rowLE (applyBookingToSlot D dn av) av := by
  cases dn with
  | none => exact rowLE_replicate_false av
  | some n =>
      by_cases hc : 1 ≤ n ∧ n ≤ (D : Int)
      · simp only [applyBookingToSlot, if_pos hc]
        exact rowLE_set_false av _
      · simp only [applyBookingToSlot, if_neg hc]
        exact rowLE_replicate_false av

theorem matrixLE_mapSet (m : List (String × List Bool)) (k : String)
    (v av : List Bool) (hget : mapGet m k = some av) (hle : rowLE v av) :
    matrixLE (mapSet m k v) m := by
  induction m with
  | nil => simp [mapGet] at hget
  | cons e rest ih =>
      obtain ⟨k2, v2⟩ := e
      by_cases h2 : k2 = k
      · subst h2
        have hv : v2 = av := by
          simpa [mapGet] using hget
        subst hv
        simp only [mapSet, if_pos rfl]
        exact List.Forall₂.cons ⟨rfl, hle⟩
          (List.forall₂_same.mpr (fun e _ => ⟨rfl, rowLE_refl e.2⟩))
      · simp only [mapGet, if_neg h2] at hget
        simp only [mapSet, if_neg h2]
        exact List.Forall₂.cons ⟨rfl, rowLE_refl v2⟩ (ih hget)

theorem applyStep_matrixLE (D : Nat) (dn : Option Int)
    (m : List (String × List Bool)) (slot : String) :
    matrixLE (applyStep D dn m slot) m := by
  unfold applyStep
  cases hg : mapGet m slot with
  | none => exact matrixLE_refl m
  | some av =>
      exact matrixLE_mapSet m slot _ av hg (applyBookingToSlot_rowLE D dn av)

theorem foldl_applyStep_matrixLE (D : Nat) (dn : Option Int)
    (l : List String) (m : List (String × List Bool)) :
    matrixLE (l.foldl (applyStep D dn) m) m := by
  induction l generalizing m with
  | nil => exact matrixLE_refl m
  | cons x rest ih =>
      simp only [List.foldl_cons]
      exact matrixLE_trans (ih _) (applyStep_matrixLE D dn m x)

theorem applyBooking_matrixLE (grid : List String) (D : Nat)
    (m : List (String × List Bool)) (b : Booking) :
    matrixLE (applyBooking grid D m b) m := by
  rw [applyBooking_eq_foldl]
  exact foldl_applyStep_matrixLE _ _ _ _

/-- Claim C7: adding a reservation to the input list yields a matrix that is
pointwise less-or-equally free than the matrix without it — `true` flags can
only turn `false`, never the reverse. -/
theorem claim_C7_matrix_monotone_in_reservations (grid : List String)
    (D : Nat) (R : List Booking) (r : Booking) :
    matrixLE (buildMatrix grid D (R ++ [r])) (buildMatrix grid D R) := by
  have h : buildMatrix grid D (R ++ [r]) =
      applyBooking grid D (buildMatrix grid D R) r := by
    simp [buildMatrix, List.foldl_append]
  rw [h]
  exact applyBooking_matrixLE grid D (buildMatrix grid D R) r

end BookingEngine
